import Mathlib

/-!
Verification of the gerrit2git-archive preservation pipeline.

Python strings are modelled as Lean `String`s (lists of code points);
the naming-policy functions work on the underlying `List Char`.
`src/src/history_preserver.py`, `src/src/git_manager.py`,
`src/src/metadata_exporter.py` and the index part of
`src/src/html_generator.py` are embedded as pure functions over an
explicit environment recording the outcome of every client fetch and
subprocess call.
-/

namespace Gerrit

/-- The `str.isalnum() or c in ('-','_')` guard of the sanitizer
(history_preserver.py lines 85-86 and 190-191, html_generator.py 384-385).
Python's `isalnum` additionally accepts some non-ASCII letters; the
alphanumeric class is irrelevant to every property proved below, which
depend only on how digits, `-` and `_` are treated. -/
def sanChar (c : Char) : Char :=
  if c.isAlphanum || c = '-' || c = '_' then c else '_'

/-- Python `"".join(c if c.isalnum() or c in ('-','_') else '_' for c in subject[:50])`. -/
def safeSubjectL (subject : List Char) : List Char :=
  (subject.take 50).map sanChar

/-- Decimal digit list of a natural number, most significant first
(the digits Python's `str`/format produce). -/
def natDigits (n : Nat) : List Char :=
  if _h : n < 10 then [Nat.digitChar n]
  else natDigits (n / 10) ++ [Nat.digitChar (n % 10)]
  decreasing_by exact Nat.div_lt_self (by omega) (by omega)

/-- Python `f"{n:04d}"`: zero-pad the decimal rendering on the left to width at
least 4 (wider renderings are left alone). -/
def padNum (n : Nat) : List Char :=
  List.replicate (4 - (natDigits n).length) '0' ++ natDigits n

/-- The identifier `f"{change_number:04d}-{safe_subject}"` shared by the
patch, html and index sinks (history_preserver.py 190-192,
html_generator.py 384-386), as a character list. -/
def identifyL (number : Nat) (subject : List Char) : List Char :=
  padNum number ++ '-' :: safeSubjectL subject

/-- String-level naming policy. -/
def identify (number : Nat) (subject : String) : String :=
  ⟨identifyL number subject.toList⟩

def digitVal (c : Char) : Nat := c.toNat - '0'.toNat

/-- Reading a digit list back as a number (left inverse used to show the
padded prefix determines the change number). -/
def parseDigits (l : List Char) : Nat :=
  l.foldl (fun a c => 10 * a + digitVal c) 0

theorem digitVal_digitChar {d : Nat} (h : d < 10) :
    digitVal (Nat.digitChar d) = d := by
  interval_cases d <;> decide

theorem isDigit_digitChar {d : Nat} (h : d < 10) :
    (Nat.digitChar d).isDigit = true := by
  interval_cases d <;> decide

theorem natDigits_all_digits (n : Nat) :
    ∀ c ∈ natDigits n, c.isDigit = true := by
  induction n using Nat.strong_induction_on with
  | _ n ih =>
    intro c hc
    rw [natDigits] at hc
    split at hc
    · next h =>
      simp only [List.mem_singleton] at hc
      exact hc ▸ isDigit_digitChar h
    · next h =>
      rcases List.mem_append.mp hc with h1 | h2
      · exact ih (n / 10) (Nat.div_lt_self (by omega) (by omega)) c h1
      · simp only [List.mem_singleton] at h2
        exact h2 ▸ isDigit_digitChar (Nat.mod_lt _ (by omega))

theorem natDigits_ne_nil (n : Nat) : natDigits n ≠ [] := by
  rw [natDigits]
  split <;> simp

theorem parseDigits_foldl (l : List Char) (a : Nat) :
    l.foldl (fun a c => 10 * a + digitVal c) a =
      a * 10 ^ l.length + parseDigits l := by
  induction l generalizing a with
  | nil => simp [parseDigits]
  | cons c t ih =>
    simp only [List.foldl_cons, List.length_cons, parseDigits]
    rw [ih (10 * a + digitVal c), ih (10 * 0 + digitVal c)]
    ring

theorem parseDigits_natDigits (n : Nat) : parseDigits (natDigits n) = n := by
  induction n using Nat.strong_induction_on with
  | _ n ih =>
    rw [natDigits]
    split
    · next h =>
      simp [parseDigits, digitVal_digitChar h]
    · next h =>
      have hrec := ih (n / 10) (Nat.div_lt_self (by omega) (by omega))
      simp only [parseDigits, List.foldl_append, List.foldl_cons, List.foldl_nil]
      rw [show (natDigits (n / 10)).foldl (fun a c => 10 * a + digitVal c) 0
            = parseDigits (natDigits (n / 10)) from rfl, hrec,
          digitVal_digitChar (Nat.mod_lt _ (by omega))]
      omega

theorem parseDigits_padNum (n : Nat) : parseDigits (padNum n) = n := by
  unfold padNum parseDigits
  rw [List.foldl_append]
  have hz : ∀ k, (List.replicate k '0').foldl (fun a c => 10 * a + digitVal c) 0 = 0 := by
    intro k
    induction k with
    | zero => rfl
    | succ m ihm => simpa [List.replicate_succ, digitVal] using ihm
  rw [hz]
  exact parseDigits_natDigits n

theorem padNum_injective {n1 n2 : Nat} (h : padNum n1 = padNum n2) : n1 = n2 := by
  have := parseDigits_padNum n1
  rw [h, parseDigits_padNum n2] at this
  exact this.symm

theorem padNum_all_digits (n : Nat) : ∀ c ∈ padNum n, c.isDigit = true := by
  intro c hc
  rcases List.mem_append.mp hc with h1 | h2
  · rw [List.eq_of_mem_replicate h1]; decide
  · exact natDigits_all_digits n c h2

/-- If two lists agree and each is a run of `P`-characters followed by the
same non-`P` separator, the runs coincide. -/
theorem sep_prefix_eq (P : Char → Bool) (sep : Char) (hsep : P sep = false) :
    ∀ (l1 l2 t1 t2 : List Char), (∀ c ∈ l1, P c = true) → (∀ c ∈ l2, P c = true) →
      l1 ++ sep :: t1 = l2 ++ sep :: t2 → l1 = l2 := by
  intro l1
  induction l1 with
  | nil =>
    intro l2 t1 t2 _ h2 heq
    cases l2 with
    | nil => rfl
    | cons b bs =>
      simp only [List.nil_append, List.cons_append, List.cons.injEq] at heq
      have : P b = true := h2 b (by simp)
      rw [← heq.1] at this
      rw [hsep] at this
      exact absurd this (by simp)
  | cons a as ih =>
    intro l2 t1 t2 h1 h2 heq
    cases l2 with
    | nil =>
      simp only [List.cons_append, List.nil_append, List.cons.injEq] at heq
      have : P a = true := h1 a (by simp)
      rw [heq.1, hsep] at this
      exact absurd this (by simp)
    | cons b bs =>
      simp only [List.cons_append, List.cons.injEq] at heq
      rw [heq.1, ih bs t1 t2 (fun c hc => h1 c (by simp [hc]))
        (fun c hc => h2 c (by simp [hc])) heq.2]

/-- The change number is recoverable from the identifier: distinct numbers
give distinct identifiers, whatever the subjects. -/
theorem identifyL_inj_number {n1 n2 : Nat} {s1 s2 : List Char}
    (h : identifyL n1 s1 = identifyL n2 s2) : n1 = n2 := by
  unfold identifyL at h
  have hpre := sep_prefix_eq Char.isDigit '-' (by decide)
    (padNum n1) (padNum n2) (safeSubjectL s1) (safeSubjectL s2)
    (padNum_all_digits n1) (padNum_all_digits n2) h
  exact padNum_injective hpre

theorem identify_inj_number {n1 n2 : Nat} {s1 s2 : String}
    (h : identify n1 s1 = identify n2 s2) : n1 = n2 :=
  identifyL_inj_number (congrArg String.data h)

theorem length_padNum (n : Nat) :
    (padNum n).length = max 4 (natDigits n).length := by
  simp only [padNum, List.length_append, List.length_replicate]
  omega

theorem natDigits_suffix_padNum (n : Nat) : natDigits n <:+ padNum n :=
  ⟨List.replicate (4 - (natDigits n).length) '0', rfl⟩

theorem length_safeSubjectL (s : List Char) : (safeSubjectL s).length ≤ 50 := by
  simp only [safeSubjectL, List.length_map]
  exact List.length_take_le 50 s

/-- C4: For every pair of change numbers n1 ≠ n2 and every pair of subjects
s1, s2, the identifier function (zero-pad the number to at least 4 digits,
append '-', append the sanitized 50-character-truncated subject) yields
distinct identifiers: identify(n1,s1) ≠ identify(n2,s2). -/
theorem identify_collision_free (n1 n2 : Nat) (s1 s2 : String) (h : n1 ≠ n2) :
    identify n1 s1 ≠ identify n2 s2 :=
  fun heq => h (identify_inj_number heq)

theorem identify_collision_free_witness :
    (12345 : Nat) ≠ 1234 ∧ identify 12345 "abc" ≠ identify 1234 "5-abc" :=
  ⟨by decide, identify_collision_free 12345 1234 "abc" "5-abc" (by decide)⟩

/-- C5: For every number and subject, the identifier is built by first
truncating the subject to its first 50 code points, then replacing every
character that is not alphanumeric and not '-' or '_' with '_', zero-padding
the number to at least 4 digits (wider numbers left unpadded), and
concatenating as "{paddedNumber}-{sanitizedSubject}"; hence the sanitized
subject portion has length at most 50. -/
theorem identify_construction (n : Nat) (s : String) :
    identify n s =
      ⟨padNum n ++ '-' :: (s.toList.take 50).map
        (fun c => if c.isAlphanum || c = '-' || c = '_' then c else '_')⟩ ∧
    (safeSubjectL s.toList).length ≤ 50 ∧
    (padNum n).length = max 4 (natDigits n).length ∧
    natDigits n <:+ padNum n :=
  ⟨rfl, length_safeSubjectL s.toList, length_padNum n, natDigits_suffix_padNum n⟩

/-- One change object as returned by the `/changes/` query
(`_number`, `subject`, `created`, `current_revision`, plus the fields the
index page displays). Optional JSON members are `Option`s. -/
structure Change where
  number : Nat
  subject : String
  created : Option String
  currentRevision : Option String
  project : String
  status : String
  ownerName : String
  updated : String
deriving DecidableEq

/-- Python string `<`: lexicographic comparison of code points. -/
def strLtb : List Char → List Char → Bool
  | [], [] => false
  | [], _ :: _ => true
  | _ :: _, [] => false
  | a :: as, b :: bs => if a < b then true else if b < a then false else strLtb as bs

/-- Python string `<=`. -/
def strLeb (s t : List Char) : Bool := !(strLtb t s)

theorem strLtb_irrefl (l : List Char) : strLtb l l = false := by
  induction l with
  | nil => rfl
  | cons a as ih => simp [strLtb, lt_irrefl, ih]

theorem strLtb_connex (l1 l2 : List Char) :
    strLtb l1 l2 = true ∨ l1 = l2 ∨ strLtb l2 l1 = true := by
  induction l1 generalizing l2 with
  | nil => cases l2 <;> simp [strLtb]
  | cons a as ih =>
    cases l2 with
    | nil => simp [strLtb]
    | cons b bs =>
      rcases lt_trichotomy a b with h | h | h
      · left; simp [strLtb, h]
      · subst h
        rcases ih bs with h2 | h2 | h2
        · left; simp [strLtb, lt_irrefl, h2]
        · right; left; rw [h2]
        · right; right; simp [strLtb, lt_irrefl, h2]
      · right; right; simp [strLtb, h]

theorem strLtb_trans {l1 l2 l3 : List Char} (h12 : strLtb l1 l2 = true)
    (h23 : strLtb l2 l3 = true) : strLtb l1 l3 = true := by
  induction l1 generalizing l2 l3 with
  | nil =>
    cases l2 with
    | nil => simp [strLtb] at h12
    | cons b bs =>
      cases l3 with
      | nil => simp [strLtb] at h23
      | cons c cs => simp [strLtb]
  | cons a as ih =>
    cases l2 with
    | nil => simp [strLtb] at h12
    | cons b bs =>
      cases l3 with
      | nil => simp [strLtb] at h23
      | cons c cs =>
        rw [strLtb] at h12 h23 ⊢
        rcases lt_trichotomy a b with hab | hab | hab
        · rcases lt_trichotomy b c with hbc | hbc | hbc
          · simp [lt_trans hab hbc]
          · subst hbc; simp [hab]
          · simp [lt_asymm hbc, hbc] at h23
        · subst hab
          simp only [lt_irrefl, if_false, if_neg (lt_irrefl a)] at h12
          rcases lt_trichotomy a c with hac | hac | hac
          · simp [hac]
          · subst hac
            simp only [lt_irrefl, if_false, if_neg (lt_irrefl a)] at h23 ⊢
            exact ih h12 h23
          · simp [lt_asymm hac, hac] at h23
        · simp [lt_asymm hab, hab] at h12

theorem strLtb_asymm {l1 l2 : List Char} (h : strLtb l1 l2 = true) :
    strLtb l2 l1 = false := by
  by_contra hne
  have h2 : strLtb l2 l1 = true := by simpa using hne
  have h3 := strLtb_trans h h2
  rw [strLtb_irrefl] at h3
  exact absurd h3 (by simp)

theorem strLeb_total {l1 l2 : List Char} (h : strLeb l1 l2 = false) :
    strLeb l2 l1 = true := by
  have h2 : strLtb l2 l1 = true := by
    rcases hb : strLtb l2 l1 with _ | _
    · rw [strLeb, hb] at h
      exact absurd h (by simp)
    · rfl
  simp only [strLeb, strLtb_asymm h2, Bool.not_false]

theorem strLeb_trans {l1 l2 l3 : List Char} (h12 : strLeb l1 l2 = true)
    (h23 : strLeb l2 l3 = true) : strLeb l1 l3 = true := by
  simp only [strLeb, Bool.not_eq_true', Bool.not_eq_true] at *
  by_contra hne
  have hca : strLtb l3 l1 = true := by simpa using hne
  rcases strLtb_connex l1 l2 with h | h | h
  · rw [strLtb_trans hca h] at h23
    exact absurd h23 (by simp)
  · subst h
    rw [hca] at h23
    exact absurd h23 (by simp)
  · rw [h] at h12
    exact absurd h12 (by simp)

theorem strLtb_ne {l1 l2 : List Char} (h : strLtb l1 l2 = true) : l1 ≠ l2 := by
  intro heq
  rw [heq, strLtb_irrefl] at h
  exact absurd h (by simp)

/-- The sort key `lambda x: x.get('created', '')` of
history_preserver.py line 157, as a code-point list. -/
def createdKey (c : Change) : List Char := (c.created.getD "").data

/-- Insert `x` into `l` before the first element whose key is not smaller;
the insertion step of a stable sort (equal keys keep `x`, the earlier
element, first). -/
def insortBy (key : Change → List Char) (x : Change) : List Change → List Change
  | [] => [x]
  | y :: ys => if strLeb (key x) (key y) then x :: y :: ys else y :: insortBy key x ys

/-- Python's stable `list.sort(key=...)`, embedded as stable insertion
sort: same multiset, non-decreasing keys, equal-key elements in input
order. -/
def pySortBy (key : Change → List Char) : List Change → List Change
  | [] => []
  | x :: xs => insortBy key x (pySortBy key xs)

theorem insortBy_perm (key : Change → List Char) (x : Change) (l : List Change) :
    List.Perm (insortBy key x l) (x :: l) := by
  induction l with
  | nil => exact List.Perm.refl _
  | cons y ys ih =>
    rw [insortBy]
    split
    · exact List.Perm.refl _
    · exact (ih.cons y).trans (List.Perm.swap x y ys)

theorem pySortBy_perm (key : Change → List Char) (l : List Change) :
    List.Perm (pySortBy key l) l := by
  induction l with
  | nil => exact List.Perm.refl _
  | cons x xs ih =>
    rw [pySortBy]
    exact (insortBy_perm key x (pySortBy key xs)).trans (ih.cons x)

theorem mem_insortBy {key : Change → List Char} {x z : Change} {l : List Change}
    (h : z ∈ insortBy key x l) : z = x ∨ z ∈ l :=
  List.mem_cons.mp ((insortBy_perm key x l).mem_iff.mp h)

theorem insortBy_pairwise {key : Change → List Char} {x : Change} {l : List Change}
    (h : l.Pairwise (fun a b => strLeb (key a) (key b) = true)) :
    (insortBy key x l).Pairwise (fun a b => strLeb (key a) (key b) = true) := by
  induction l with
  | nil => simp [insortBy]
  | cons y ys ih =>
    rw [insortBy]
    rcases List.pairwise_cons.mp h with ⟨hy, hys⟩
    split
    · next hle =>
      refine List.pairwise_cons.mpr ⟨?_, h⟩
      intro z hz
      rcases List.mem_cons.mp hz with rfl | hz
      · exact hle
      · exact strLeb_trans hle (hy z hz)
    · next hle =>
      refine List.pairwise_cons.mpr ⟨?_, ih hys⟩
      intro z hz
      rcases mem_insortBy hz with rfl | hz
      · exact strLeb_total (Bool.eq_false_iff.mpr hle)
      · exact hy z hz

theorem pySortBy_pairwise (key : Change → List Char) (l : List Change) :
    (pySortBy key l).Pairwise (fun a b => strLeb (key a) (key b) = true) := by
  induction l with
  | nil => simp [pySortBy]
  | cons x xs ih => exact insortBy_pairwise ih

theorem insortBy_filter_key (key : Change → List Char) (x : Change)
    (l : List Change) (k : List Char) :
    (insortBy key x l).filter (fun c => key c == k) =
      (x :: l).filter (fun c => key c == k) := by
  induction l with
  | nil => rfl
  | cons y ys ih =>
    rw [insortBy]
    split
    · rfl
    · next hle =>
      have hlt : strLtb (key y) (key x) = true := by
        have := Bool.eq_false_iff.mpr hle
        simpa [strLeb] using this
      have hne : key y ≠ key x := strLtb_ne hlt
      by_cases hx : key x = k
      · have hy : (key y == k) = false := by
          simp only [beq_eq_false_iff_ne, ne_eq]
          intro hyk
          exact hne (hyk.trans hx.symm)
        simp only [List.filter_cons, hy, ih]
        simp [List.filter_cons]
      · simp only [List.filter_cons, ih]
        simp only [List.filter_cons, beq_iff_eq, hx]
        split <;> rfl

theorem pySortBy_filter_key (key : Change → List Char) (l : List Change)
    (k : List Char) :
    (pySortBy key l).filter (fun c => key c == k) =
      l.filter (fun c => key c == k) := by
  induction l with
  | nil => rfl
  | cons x xs ih =>
    rw [pySortBy, insortBy_filter_key, List.filter_cons, List.filter_cons, ih]

/-- The sort `changes.sort(key=lambda x: x.get('created', ''))`
(history_preserver.py line 157). -/
def sortChanges (l : List Change) : List Change := pySortBy createdKey l

/-- A git subprocess invocation issued by GitManager (git_manager.py).
Filesystem paths are modelled as lists of components. -/
inductive GitCmd where
  | init
  | add (pattern : String)
  | commit (msg : String)
  | revParse (branch : String)
  | checkoutNew (branch : String)
  | checkout (branch : String)
deriving DecidableEq

/-- Outcomes of the subprocess calls and filesystem probes `init_repo`
makes; directory creation (`os.makedirs(..., exist_ok=True)`) is modelled
as non-failing. -/
structure GitEnv where
  gitDirExists : Bool
  gitInitOk : Bool
  addOk : Bool
  commitOk : Bool
  branchExists : Bool
  checkoutOk : Bool
deriving DecidableEq

/-- The Python value `init_repo` returns: `True`/`False`, or the
output-folder path string in the existing-repository branch
(git_manager.py line 38). -/
inductive InitRet where
  | boolRet (b : Bool)
  | pathRet (p : List String)
deriving DecidableEq

/-- Python truthiness of the returned value (a string is truthy iff
nonempty). -/
def InitRet.truthy : InitRet → Bool
  | .boolRet b => b
  | .pathRet p => !p.isEmpty

/-- Everything `init_repo` did: return value, git commands issued in
order, directories created, files written. -/
structure InitOut where
  ret : InitRet
  gitCmds : List GitCmd
  dirsCreated : List (List String)
  filesWritten : List (List String)
deriving DecidableEq

/-- Embeds `GitManager.init_repo(repo_path, branch_name)` (git_manager.py
lines 16-80).  If `repo_path/.git` exists it only creates the
`gerrit-archive` subfolder and returns its path; otherwise it creates the
directory, runs `git init`, writes and commits a README, then creates or
checks out the history branch; any failed subprocess aborts with `False`. -/
def initRepo (g : GitEnv) (repoPath : List String) (branchName : String) : InitOut :=
  if g.gitDirExists then
    { ret := .pathRet (repoPath ++ ["gerrit-archive"]), gitCmds := [],
      dirsCreated := [repoPath ++ ["gerrit-archive"]], filesWritten := [] }
  else if !g.gitInitOk then
    { ret := .boolRet false, gitCmds := [.init],
      dirsCreated := [repoPath], filesWritten := [] }
  else if !g.addOk then
    { ret := .boolRet false, gitCmds := [.init, .add "README.md"],
      dirsCreated := [repoPath], filesWritten := [repoPath ++ ["README.md"]] }
  else if !g.commitOk then
    { ret := .boolRet false,
      gitCmds := [.init, .add "README.md",
                  .commit "Initial commit: Gerrit history preservation"],
      dirsCreated := [repoPath], filesWritten := [repoPath ++ ["README.md"]] }
  else if g.branchExists then
    if !g.checkoutOk then
      { ret := .boolRet false,
        gitCmds := [.init, .add "README.md",
                    .commit "Initial commit: Gerrit history preservation",
                    .revParse branchName, .checkout branchName],
        dirsCreated := [repoPath], filesWritten := [repoPath ++ ["README.md"]] }
    else
      { ret := .boolRet true,
        gitCmds := [.init, .add "README.md",
                    .commit "Initial commit: Gerrit history preservation",
                    .revParse branchName, .checkout branchName],
        dirsCreated := [repoPath], filesWritten := [repoPath ++ ["README.md"]] }
  else
    if !g.checkoutOk then
      { ret := .boolRet false,
        gitCmds := [.init, .add "README.md",
                    .commit "Initial commit: Gerrit history preservation",
                    .revParse branchName, .checkoutNew branchName],
        dirsCreated := [repoPath], filesWritten := [repoPath ++ ["README.md"]] }
    else
      { ret := .boolRet true,
        gitCmds := [.init, .add "README.md",
                    .commit "Initial commit: Gerrit history preservation",
                    .revParse branchName, .checkoutNew branchName],
        dirsCreated := [repoPath], filesWritten := [repoPath ++ ["README.md"]] }

/-- C10: For every path that already contains a .git directory, init_repo
leaves the repository's git state entirely unchanged — it creates no
commit, does not create or check out the requested branch_name, and runs
no git command; its only effect is creating a 'gerrit-archive'
subdirectory, and it returns that subdirectory's path (a truthy string)
instead of the boolean True. -/
theorem initRepo_existing_repo_untouched (g : GitEnv) (repoPath : List String)
    (branchName : String) (h : g.gitDirExists = true) :
    initRepo g repoPath branchName =
      { ret := .pathRet (repoPath ++ ["gerrit-archive"]), gitCmds := [],
        dirsCreated := [repoPath ++ ["gerrit-archive"]], filesWritten := [] } ∧
    (initRepo g repoPath branchName).ret.truthy = true ∧
    (initRepo g repoPath branchName).ret ≠ .boolRet true := by
  refine ⟨by simp [initRepo, h], ?_, ?_⟩ <;>
    simp [initRepo, h, InitRet.truthy]

theorem initRepo_existing_repo_untouched_witness :
    ({ gitDirExists := true, gitInitOk := true, addOk := true, commitOk := true,
       branchExists := false, checkoutOk := true } : GitEnv).gitDirExists = true ∧
    initRepo { gitDirExists := true, gitInitOk := true, addOk := true,
               commitOk := true, branchExists := false, checkoutOk := true }
        ["repo"] "gerrit-history" =
      { ret := .pathRet ["repo", "gerrit-archive"], gitCmds := [],
        dirsCreated := [["repo", "gerrit-archive"]], filesWritten := [] } :=
  ⟨rfl, (initRepo_existing_repo_untouched _ ["repo"] "gerrit-history" rfl).1⟩

/-- JSON objects returned by the detail/comments/files endpoints, modelled
as association lists; the pipeline never inspects them. -/
abbrev Detail := List (String × String)
abbrev Comments := List (String × String)
abbrev Files := List (String × String)

/-- One Gerrit REST request (the network calls `preserve_history` can
issue, in the order the code makes them). -/
inductive NetCall where
  | query
  | detail (n : Nat)
  | comments (n : Nat)
  | files (n : Nat) (rev : String)
  | patch (n : Nat) (rev : String)
deriving DecidableEq

/-- The run environment: subprocess outcomes for GitManager and the
response (or raised exception, `Except.error`) of every client call,
the query included — `get_changes` is called outside any try block
(history_preserver.py line 153, export path line 55), so its failure
propagates out of the run. -/
structure Env where
  genv : GitEnv
  queryResult : Except Unit (List Change)
  detailR : Nat → Except Unit Detail
  commentsR : Nat → Except Unit Comments
  filesR : Nat → String → Except Unit Files
  patchR : Nat → String → Except Unit String
  renderR : Detail → Comments → Files → Except Unit String

def exOk : Except Unit α → Bool
  | .ok _ => true
  | .error _ => false

def hasKey (m : List (Nat × α)) (k : Nat) : Bool :=
  m.any (fun p => p.1 == k)

/-- Assignment `d[k] = v` on a Python dict kept as an insertion-ordered association
list: replace in place if the key exists, else append. -/
def dictSet (m : List (Nat × α)) (k : Nat) (v : α) : List (Nat × α) :=
  if hasKey m k then m.map (fun p => if p.1 == k then (k, v) else p)
  else m ++ [(k, v)]

/-- Lookup `d.get(k, default)`. -/
def dictGetD (m : List (Nat × α)) (k : Nat) (d : α) : α :=
  match m.find? (fun p => p.1 == k) with
  | some p => p.2
  | none => d

/-- The name `f"{change_number:04d}-{safe_subject}.patch"`. -/
def patchFileName (c : Change) : String :=
  ⟨identifyL c.number c.subject.toList ++ ".patch".toList⟩

/-- An html file name built from a change number and an arbitrary
sanitized-subject value (export_changes_with_html may pair a change's
number with a stale `safe_subject`). -/
def htmlNameWith (n : Nat) (s : List Char) : String :=
  ⟨padNum n ++ '-' :: (s ++ ".html".toList)⟩

/-- The name `f"{change_number:04d}-{safe_subject}.html"` with the change's own
subject. -/
def htmlFileName (c : Change) : String :=
  htmlNameWith c.number (safeSubjectL c.subject.toList)

/-- Mutable loop state of `preserve_history` (history_preserver.py
lines 159-216): issued calls, written files, and the two metadata dicts. -/
structure PState where
  calls : List NetCall
  patchFiles : List String
  htmlFiles : List String
  commentsMap : List (Nat × Comments)
  filesMap : List (Nat × Files)
deriving DecidableEq

/-- One iteration of the `preserve_history` loop (history_preserver.py
lines 165-216): skip without a current revision; fetch detail, comments,
files (recording the maps only when all three succeed, any failure skips
the change); fetch and write the patch, a failure here `continue`s past
the html step; render and write the html document. -/
def stepChange (env : Env) (st : PState) (c : Change) : PState :=
  match c.currentRevision with
  | none => st
  | some rev =>
    match env.detailR c.number with
    | .error _ => { st with calls := st.calls ++ [NetCall.detail c.number] }
    | .ok d =>
      match env.commentsR c.number with
      | .error _ => { st with calls := st.calls ++ [NetCall.detail c.number, NetCall.comments c.number] }
      | .ok cm =>
        match env.filesR c.number rev with
        | .error _ =>
          { st with calls := st.calls ++
              [NetCall.detail c.number, NetCall.comments c.number, NetCall.files c.number rev] }
        | .ok fs =>
          let st1 := { st with
            calls := st.calls ++
              [NetCall.detail c.number, NetCall.comments c.number, NetCall.files c.number rev],
            commentsMap := dictSet st.commentsMap c.number cm,
            filesMap := dictSet st.filesMap c.number fs }
          match env.patchR c.number rev with
          | .error _ => { st1 with calls := st1.calls ++ [NetCall.patch c.number rev] }
          | .ok _ =>
            let st2 := { st1 with
              calls := st1.calls ++ [NetCall.patch c.number rev],
              patchFiles := st1.patchFiles ++ [patchFileName c] }
            match env.renderR d cm fs with
            | .error _ => st2
            | .ok _ => { st2 with htmlFiles := st2.htmlFiles ++ [htmlFileName c] }

def initialPState : PState :=
  { calls := [NetCall.query], patchFiles := [], htmlFiles := [],
    commentsMap := [], filesMap := [] }

/-- The loop state after the whole per-change loop over the list the
query returned, starting right after the single query call. -/
def runPState (env : Env) (queried : List Change) : PState :=
  (sortChanges queried).foldl (stepChange env) initialPState

/-- One element of the aggregate metadata document's `changes` list
(metadata_exporter.py lines 40-46): the queried change object with
`comments_map.get(n, {})` and `files_map.get(n, {})`. -/
structure MetaEntry where
  change : Change
  comments : Comments
  files : Files
deriving DecidableEq

def metaEntryOf (st : PState) (c : Change) : MetaEntry :=
  { change := c, comments := dictGetD st.commentsMap c.number [],
    files := dictGetD st.filesMap c.number [] }

/-- Observable outcome of a successful `preserve_history` run: the
summary dictionary, the index rows, the aggregate metadata entries, and
where the output was staged inside the repository. -/
structure RunResult where
  totalChanges : Nat
  patchFiles : List String
  htmlFiles : List String
  processedOrder : List Change
  indexRows : List Change
  metadataEntries : List MetaEntry
  patchStageDir : List String
  htmlStageDir : List String
  stagedFiles : List (List String)
  summaryPatchCount : Nat
  summaryHtmlCount : Nat
deriving DecidableEq

def runResult (env : Env) (queried : List Change) (repoPath : List String) :
    RunResult :=
  let changes := sortChanges queried
  let st := runPState env queried
  { totalChanges := changes.length,
    patchFiles := st.patchFiles,
    htmlFiles := st.htmlFiles,
    processedOrder := changes,
    indexRows := changes,
    metadataEntries := changes.map (metaEntryOf st),
    patchStageDir := repoPath ++ ["patches"],
    htmlStageDir := repoPath ++ ["html"],
    stagedFiles := st.patchFiles.map (fun f => repoPath ++ ["patches", f]) ++
      st.htmlFiles.map (fun f => repoPath ++ ["html", f]) ++
      [repoPath ++ ["html", "index.html"]],
    summaryPatchCount := st.patchFiles.length,
    summaryHtmlCount := st.htmlFiles.length }

/-- Embeds `GerritHistoryPreserver.preserve_history` (history_preserver.py
lines 118-279): initialize the repository (a falsy result raises and
aborts the run before any request), issue the one query — uncaught, so
its failure also aborts the run, after that single network call — sort
by `created`, process every change, build the index over the sorted
list, save the metadata, stage patches/html/index into
`repo_path/patches` and `repo_path/html`, and commit.  Returns the
network calls issued and either the raised failure or the summary. -/
def preserveHistory (env : Env) (repoPath : List String) (branchName : String) :
    List NetCall × Except Unit RunResult :=
  if !(initRepo env.genv repoPath branchName).ret.truthy then ([], .error ())
  else
    match env.queryResult with
    | .error _ => ([NetCall.query], .error ())
    | .ok queried =>
      ((runPState env queried).calls, .ok (runResult env queried repoPath))

theorem preserveHistory_ok (env : Env) (repoPath : List String)
    (branchName : String) (queried : List Change)
    (h : (initRepo env.genv repoPath branchName).ret.truthy = true)
    (hq : env.queryResult = Except.ok queried) :
    preserveHistory env repoPath branchName =
      ((runPState env queried).calls, .ok (runResult env queried repoPath)) := by
  simp [preserveHistory, h, hq]

theorem preserveHistory_query_error (env : Env) (repoPath : List String)
    (branchName : String)
    (h : (initRepo env.genv repoPath branchName).ret.truthy = true)
    (hq : env.queryResult = Except.error ()) :
    preserveHistory env repoPath branchName = ([NetCall.query], .error ()) := by
  simp [preserveHistory, h, hq]

/-- All three detail fetches of a change succeed (its current revision
being present). -/
def fetchesOk (env : Env) (c : Change) : Bool :=
  match c.currentRevision with
  | none => false
  | some rev =>
    exOk (env.detailR c.number) && exOk (env.commentsR c.number) &&
      exOk (env.filesR c.number rev)

/-- The raw-patch fetch of a change succeeds. -/
def patchOk (env : Env) (c : Change) : Bool :=
  match c.currentRevision with
  | none => false
  | some rev => exOk (env.patchR c.number rev)

/-- Rendering the change's html document succeeds (on the fetched data). -/
def renderOk (env : Env) (c : Change) : Bool :=
  match c.currentRevision with
  | none => false
  | some rev =>
    match env.detailR c.number, env.commentsR c.number, env.filesR c.number rev with
    | .ok d, .ok cm, .ok fs => exOk (env.renderR d cm fs)
    | _, _, _ => false

def fetchedComments (env : Env) (c : Change) : Comments :=
  match env.commentsR c.number with
  | .ok cm => cm
  | .error _ => []

def fetchedFiles (env : Env) (c : Change) : Files :=
  match c.currentRevision with
  | none => []
  | some rev =>
    match env.filesR c.number rev with
    | .ok fs => fs
    | .error _ => []

/-- The patch files one loop iteration writes. -/
def patchOut (env : Env) (c : Change) : List String :=
  if fetchesOk env c && patchOk env c then [patchFileName c] else []

/-- The html files one loop iteration writes. -/
def htmlOut (env : Env) (c : Change) : List String :=
  if fetchesOk env c && patchOk env c && renderOk env c then [htmlFileName c] else []

theorem stepChange_patchFiles (env : Env) (st : PState) (c : Change) :
    (stepChange env st c).patchFiles = st.patchFiles ++ patchOut env c := by
  unfold stepChange patchOut fetchesOk patchOk
  cases hrev : c.currentRevision with
  | none => simp [hrev]
  | some rev =>
    cases hd : env.detailR c.number with
    | error u => simp [hrev, hd, exOk]
    | ok d =>
      cases hcm : env.commentsR c.number with
      | error u => simp [hrev, hd, hcm, exOk]
      | ok cm =>
        cases hfs : env.filesR c.number rev with
        | error u => simp [hrev, hd, hcm, hfs, exOk]
        | ok fs =>
          cases hp : env.patchR c.number rev with
          | error u => simp [hrev, hd, hcm, hfs, hp, exOk]
          | ok pc =>
            cases hr : env.renderR d cm fs with
            | error u => simp [hrev, hd, hcm, hfs, hp, hr, exOk]
            | ok h => simp [hrev, hd, hcm, hfs, hp, hr, exOk]

theorem stepChange_htmlFiles (env : Env) (st : PState) (c : Change) :
    (stepChange env st c).htmlFiles = st.htmlFiles ++ htmlOut env c := by
  unfold stepChange htmlOut fetchesOk patchOk renderOk
  cases hrev : c.currentRevision with
  | none => simp [hrev]
  | some rev =>
    cases hd : env.detailR c.number with
    | error u => simp [hrev, hd, exOk]
    | ok d =>
      cases hcm : env.commentsR c.number with
      | error u => simp [hrev, hd, hcm, exOk]
      | ok cm =>
        cases hfs : env.filesR c.number rev with
        | error u => simp [hrev, hd, hcm, hfs, exOk]
        | ok fs =>
          cases hp : env.patchR c.number rev with
          | error u => simp [hrev, hd, hcm, hfs, hp, exOk]
          | ok pc =>
            cases hr : env.renderR d cm fs with
            | error u => simp [hrev, hd, hcm, hfs, hp, hr, exOk]
            | ok h => simp [hrev, hd, hcm, hfs, hp, hr, exOk]

theorem stepChange_commentsMap (env : Env) (st : PState) (c : Change) :
    (stepChange env st c).commentsMap = if fetchesOk env c then dictSet st.commentsMap c.number (fetchedComments env c)
      else st.commentsMap := by
  unfold stepChange fetchesOk fetchedComments
  cases hrev : c.currentRevision with
  | none => simp [hrev]
  | some rev =>
    cases hd : env.detailR c.number with
    | error u => simp [hrev, hd, exOk]
    | ok d =>
      cases hcm : env.commentsR c.number with
      | error u => simp [hrev, hd, hcm, exOk]
      | ok cm =>
        cases hfs : env.filesR c.number rev with
        | error u => simp [hrev, hd, hcm, hfs, exOk]
        | ok fs =>
          cases hp : env.patchR c.number rev with
          | error u => simp [hrev, hd, hcm, hfs, hp, exOk]
          | ok pc =>
            cases hr : env.renderR d cm fs with
            | error u => simp [hrev, hd, hcm, hfs, hp, hr, exOk]
            | ok h => simp [hrev, hd, hcm, hfs, hp, hr, exOk]

theorem stepChange_filesMap (env : Env) (st : PState) (c : Change) :
    (stepChange env st c).filesMap = if fetchesOk env c then dictSet st.filesMap c.number (fetchedFiles env c)
      else st.filesMap := by
  unfold stepChange fetchesOk fetchedFiles
  cases hrev : c.currentRevision with
  | none => simp [hrev]
  | some rev =>
    cases hd : env.detailR c.number with
    | error u => simp [hrev, hd, exOk]
    | ok d =>
      cases hcm : env.commentsR c.number with
      | error u => simp [hrev, hd, hcm, exOk]
      | ok cm =>
        cases hfs : env.filesR c.number rev with
        | error u => simp [hrev, hd, hcm, hfs, exOk]
        | ok fs =>
          cases hp : env.patchR c.number rev with
          | error u => simp [hrev, hd, hcm, hfs, hp, exOk]
          | ok pc =>
            cases hr : env.renderR d cm fs with
            | error u => simp [hrev, hd, hcm, hfs, hp, hr, exOk]
            | ok h => simp [hrev, hd, hcm, hfs, hp, hr, exOk]

theorem foldl_stepChange_patchFiles (env : Env) (l : List Change) (st : PState) :
    (l.foldl (stepChange env) st).patchFiles =
      st.patchFiles ++ (l.map (patchOut env)).flatten := by
  induction l generalizing st with
  | nil => simp
  | cons c cs ih =>
    simp only [List.foldl_cons, List.map_cons, List.flatten_cons, ih,
      stepChange_patchFiles, List.append_assoc]

theorem foldl_stepChange_htmlFiles (env : Env) (l : List Change) (st : PState) :
    (l.foldl (stepChange env) st).htmlFiles =
      st.htmlFiles ++ (l.map (htmlOut env)).flatten := by
  induction l generalizing st with
  | nil => simp
  | cons c cs ih =>
    simp only [List.foldl_cons, List.map_cons, List.flatten_cons, ih,
      stepChange_htmlFiles, List.append_assoc]

theorem hasKey_append {α : Type} (m1 m2 : List (Nat × α)) (k : Nat) :
    hasKey (m1 ++ m2) k = (hasKey m1 k || hasKey m2 k) := by
  simp [hasKey, List.any_append]

theorem dictSet_fresh {α : Type} {m : List (Nat × α)} {k : Nat} {v : α}
    (h : hasKey m k = false) : dictSet m k v = m ++ [(k, v)] := by
  simp [dictSet, h]

theorem foldl_stepChange_commentsMap (env : Env) :
    ∀ (l : List Change) (st : PState),
      (∀ c ∈ l, hasKey st.commentsMap c.number = false) →
      (l.map Change.number).Nodup →
      (l.foldl (stepChange env) st).commentsMap =
        st.commentsMap ++ (l.filter (fetchesOk env)).map
          (fun c => (c.number, fetchedComments env c)) := by
  intro l
  induction l with
  | nil => intro st _ _; simp
  | cons c cs ih =>
    intro st hfresh hnodup
    rw [List.map_cons, List.nodup_cons] at hnodup
    simp only [List.foldl_cons]
    have hcm := stepChange_commentsMap env st c
    by_cases hf : fetchesOk env c = true
    · rw [if_pos hf, dictSet_fresh (hfresh c (by simp))] at hcm
      rw [ih (stepChange env st c) ?fresh hnodup.2, hcm, List.filter_cons_of_pos hf]
      · simp
      case fresh =>
        intro c' hc'
        rw [hcm, hasKey_append, hfresh c' (by simp [hc']), Bool.false_or]
        have hne : c.number ≠ c'.number := fun heq =>
          hnodup.1 (heq ▸ List.mem_map_of_mem Change.number hc')
        simp [hasKey, hne]
    · rw [if_neg hf] at hcm
      rw [ih (stepChange env st c) (fun c' hc' => hcm ▸ hfresh c' (by simp [hc']))
            hnodup.2, hcm, List.filter_cons_of_neg hf]

theorem foldl_stepChange_filesMap (env : Env) :
    ∀ (l : List Change) (st : PState),
      (∀ c ∈ l, hasKey st.filesMap c.number = false) →
      (l.map Change.number).Nodup →
      (l.foldl (stepChange env) st).filesMap =
        st.filesMap ++ (l.filter (fetchesOk env)).map
          (fun c => (c.number, fetchedFiles env c)) := by
  intro l
  induction l with
  | nil => intro st _ _; simp
  | cons c cs ih =>
    intro st hfresh hnodup
    rw [List.map_cons, List.nodup_cons] at hnodup
    simp only [List.foldl_cons]
    have hcm := stepChange_filesMap env st c
    by_cases hf : fetchesOk env c = true
    · rw [if_pos hf, dictSet_fresh (hfresh c (by simp))] at hcm
      rw [ih (stepChange env st c) ?fresh hnodup.2, hcm, List.filter_cons_of_pos hf]
      · simp
      case fresh =>
        intro c' hc'
        rw [hcm, hasKey_append, hfresh c' (by simp [hc']), Bool.false_or]
        have hne : c.number ≠ c'.number := fun heq =>
          hnodup.1 (heq ▸ List.mem_map_of_mem Change.number hc')
        simp [hasKey, hne]
    · rw [if_neg hf] at hcm
      rw [ih (stepChange env st c) (fun c' hc' => hcm ▸ hfresh c' (by simp [hc']))
            hnodup.2, hcm, List.filter_cons_of_neg hf]

theorem nodup_numbers_sortChanges {l : List Change}
    (h : (l.map Change.number).Nodup) :
    ((sortChanges l).map Change.number).Nodup :=
  ((pySortBy_perm createdKey l).map Change.number).nodup_iff.mpr h

theorem runPState_commentsMap (env : Env) (q : List Change)
    (h : (q.map Change.number).Nodup) :
    (runPState env q).commentsMap =
      ((sortChanges q).filter (fetchesOk env)).map
        (fun c => (c.number, fetchedComments env c)) := by
  unfold runPState
  rw [foldl_stepChange_commentsMap env _ initialPState (fun c _ => rfl)
    (nodup_numbers_sortChanges h)]
  simp [initialPState]

theorem runPState_filesMap (env : Env) (q : List Change)
    (h : (q.map Change.number).Nodup) :
    (runPState env q).filesMap =
      ((sortChanges q).filter (fetchesOk env)).map
        (fun c => (c.number, fetchedFiles env c)) := by
  unfold runPState
  rw [foldl_stepChange_filesMap env _ initialPState (fun c _ => rfl)
    (nodup_numbers_sortChanges h)]
  simp [initialPState]

theorem find?_keyed_map {α : Type} (f : Change → α) :
    ∀ (l : List Change) (c : Change), c ∈ l →
      (∀ c1 ∈ l, ∀ c2 ∈ l, c1.number = c2.number → c1 = c2) →
      (l.map (fun c' => (c'.number, f c'))).find? (fun q => q.1 == c.number) =
        some (c.number, f c) := by
  intro l
  induction l with
  | nil => intro c hc _; cases hc
  | cons a t ih =>
    intro c hc hinj
    simp only [List.map_cons, List.find?_cons]
    by_cases ha : a.number = c.number
    · have haeq : a = c := hinj a (by simp) c hc ha
      subst haeq
      simp
    · have hct : c ∈ t := by
        rcases List.mem_cons.mp hc with rfl | hmem
        · exact absurd rfl ha
        · exact hmem
      have hbeq : (a.number == c.number) = false := by simp [ha]
      simp only [hbeq]
      exact ih c hct fun c1 h1 c2 h2 =>
        hinj c1 (by simp [h1]) c2 (by simp [h2])

theorem find?_keyed_map_none {α : Type} (f : Change → α) (p : Change → Bool)
    (l : List Change) (c : Change) (hc : c ∈ l) (hpc : p c = false)
    (hinj : ∀ c1 ∈ l, ∀ c2 ∈ l, c1.number = c2.number → c1 = c2) :
    ((l.filter p).map (fun c' => (c'.number, f c'))).find?
      (fun q => q.1 == c.number) = none := by
  rw [List.find?_eq_none]
  intro q hq
  simp only [List.mem_map] at hq
  rcases hq with ⟨c', hc', rfl⟩
  have hc'l : c' ∈ l := (List.mem_filter.mp hc').1
  have hp' : p c' = true := (List.mem_filter.mp hc').2
  simp only [beq_iff_eq]
  intro hnum
  have hcc : c' = c := hinj c' hc'l c hc hnum
  rw [hcc, hpc] at hp'
  exact absurd hp' (by simp)

theorem runPState_comments_get (env : Env) (q : List Change)
    (h : (q.map Change.number).Nodup) (c : Change)
    (hc : c ∈ sortChanges q) :
    dictGetD (runPState env q).commentsMap c.number [] =
      if fetchesOk env c then fetchedComments env c else [] := by
  have hinj : ∀ c1 ∈ sortChanges q,
      ∀ c2 ∈ sortChanges q, c1.number = c2.number → c1 = c2 :=
    fun c1 h1 c2 h2 he =>
      List.inj_on_of_nodup_map (nodup_numbers_sortChanges h) h1 h2 he
  rw [runPState_commentsMap env q h]
  by_cases hf : fetchesOk env c = true
  · have hcf : c ∈ (sortChanges q).filter (fetchesOk env) :=
      List.mem_filter.mpr ⟨hc, hf⟩
    rw [dictGetD, find?_keyed_map _ _ c hcf fun c1 h1 c2 h2 he =>
      hinj c1 (List.mem_of_mem_filter h1) c2 (List.mem_of_mem_filter h2) he]
    simp [hf]
  · rw [dictGetD, find?_keyed_map_none _ _ _ c hc (by simpa using hf) hinj]
    simp [hf]

theorem identifyL_append_inj_number {n1 n2 : Nat} {s1 s2 t1 t2 : List Char}
    (h : identifyL n1 s1 ++ t1 = identifyL n2 s2 ++ t2) : n1 = n2 := by
  simp only [identifyL, List.append_assoc, List.cons_append] at h
  exact padNum_injective (sep_prefix_eq Char.isDigit '-'
    (by decide) _ _ _ _ (padNum_all_digits n1) (padNum_all_digits n2) h)

theorem patchFileName_inj_number {c1 c2 : Change}
    (h : patchFileName c1 = patchFileName c2) : c1.number = c2.number :=
  identifyL_append_inj_number (congrArg String.data h)

theorem htmlNameWith_inj_number {n1 n2 : Nat} {s1 s2 : List Char}
    (h : htmlNameWith n1 s1 = htmlNameWith n2 s2) : n1 = n2 := by
  have hd := congrArg String.data h
  simp only [htmlNameWith] at hd
  exact padNum_injective (sep_prefix_eq Char.isDigit '-'
    (by decide) _ _ _ _ (padNum_all_digits n1) (padNum_all_digits n2) hd)

theorem htmlFileName_inj_number {c1 c2 : Change}
    (h : htmlFileName c1 = htmlFileName c2) : c1.number = c2.number :=
  htmlNameWith_inj_number h

theorem fetchesOk_none {env : Env} {c : Change} (h : c.currentRevision = none) :
    fetchesOk env c = false := by
  unfold fetchesOk
  rw [h]

theorem mem_patchOut {env : Env} {c' : Change} {f : String}
    (h : f ∈ patchOut env c') :
    f = patchFileName c' ∧ fetchesOk env c' = true ∧ patchOk env c' = true := by
  unfold patchOut at h
  split at h
  · next hg =>
    simp only [List.mem_singleton] at h
    exact ⟨h, (Bool.and_eq_true _ _).mp hg⟩
  · cases h

theorem mem_htmlOut {env : Env} {c' : Change} {f : String}
    (h : f ∈ htmlOut env c') :
    f = htmlFileName c' ∧ fetchesOk env c' = true ∧ patchOk env c' = true ∧
      renderOk env c' = true := by
  unfold htmlOut at h
  split at h
  · next hg =>
    simp only [List.mem_singleton] at h
    rcases (Bool.and_eq_true _ _).mp hg with ⟨hg1, hg3⟩
    rcases (Bool.and_eq_true _ _).mp hg1 with ⟨hg1a, hg2⟩
    exact ⟨h, hg1a, hg2, hg3⟩
  · cases h

theorem patchOut_mem_self {env : Env} {c : Change}
    (h1 : fetchesOk env c = true) (h2 : patchOk env c = true) :
    patchFileName c ∈ patchOut env c := by
  unfold patchOut
  rw [h1, h2]
  simp

theorem runPState_files_get (env : Env) (q : List Change)
    (h : (q.map Change.number).Nodup) (c : Change)
    (hc : c ∈ sortChanges q) :
    dictGetD (runPState env q).filesMap c.number [] =
      if fetchesOk env c then fetchedFiles env c else [] := by
  have hinj : ∀ c1 ∈ sortChanges q,
      ∀ c2 ∈ sortChanges q, c1.number = c2.number → c1 = c2 :=
    fun c1 h1 c2 h2 he =>
      List.inj_on_of_nodup_map (nodup_numbers_sortChanges h) h1 h2 he
  rw [runPState_filesMap env q h]
  by_cases hf : fetchesOk env c = true
  · have hcf : c ∈ (sortChanges q).filter (fetchesOk env) :=
      List.mem_filter.mpr ⟨hc, hf⟩
    rw [dictGetD, find?_keyed_map _ _ c hcf fun c1 h1 c2 h2 he =>
      hinj c1 (List.mem_of_mem_filter h1) c2 (List.mem_of_mem_filter h2) he]
    simp [hf]
  · rw [dictGetD, find?_keyed_map_none _ _ _ c hc (by simpa using hf) hinj]
    simp [hf]

theorem runResult_patchFiles (env : Env) (q : List Change)
    (repoPath : List String) :
    (runResult env q repoPath).patchFiles =
      ((sortChanges q).map (patchOut env)).flatten := by
  show (runPState env q).patchFiles = _
  rw [runPState, foldl_stepChange_patchFiles]
  rfl

theorem runResult_htmlFiles (env : Env) (q : List Change)
    (repoPath : List String) :
    (runResult env q repoPath).htmlFiles =
      ((sortChanges q).map (htmlOut env)).flatten := by
  show (runPState env q).htmlFiles = _
  rw [runPState, foldl_stepChange_htmlFiles]
  rfl

/-- A change object whose query record carries no `current_revision`. -/
def chNoRev : Change :=
  { number := 7, subject := "Fix bug", created := some "2024-01-01 10:00:00",
    currentRevision := none, project := "proj", status := "MERGED",
    ownerName := "alice", updated := "2024-01-02" }

/-- A change for which every fetch can succeed. -/
def chOk : Change :=
  { number := 8, subject := "Add feature", created := some "2024-02-01 09:00:00",
    currentRevision := some "deadbeef", project := "proj", status := "MERGED",
    ownerName := "bob", updated := "2024-02-02" }

/-- Every GitManager subprocess succeeds; the target already holds a
repository. -/
def gitOkEnv : GitEnv :=
  { gitDirExists := true, gitInitOk := true, addOk := true, commitOk := true,
    branchExists := true, checkoutOk := true }

/-- A fresh target whose `git init` subprocess fails. -/
def gitFailEnv : GitEnv :=
  { gitDirExists := false, gitInitOk := false, addOk := true, commitOk := true,
    branchExists := true, checkoutOk := true }

/-- One queried change without a current revision; all fetches would
succeed if made. -/
def envSkip : Env :=
  { genv := gitOkEnv, queryResult := .ok [chNoRev],
    detailR := fun _ => .ok [], commentsR := fun _ => .ok [("f", "c")],
    filesR := fun _ _ => .ok [("f", "M")], patchR := fun _ _ => .ok "patch",
    renderR := fun _ _ _ => .ok "html" }

/-- One healthy change whose raw-patch fetch raises while rendering would
succeed. -/
def envPatchFail : Env :=
  { genv := gitOkEnv, queryResult := .ok [chOk],
    detailR := fun _ => .ok [], commentsR := fun _ => .ok [],
    filesR := fun _ _ => .ok [], patchR := fun _ _ => .error (),
    renderR := fun _ _ _ => .ok "html" }

/-- Repository initialization fails before anything else can happen. -/
def envInitFail : Env :=
  { genv := gitFailEnv, queryResult := .ok [chOk],
    detailR := fun _ => .ok [], commentsR := fun _ => .ok [],
    filesR := fun _ _ => .ok [], patchR := fun _ _ => .ok "patch",
    renderR := fun _ _ _ => .ok "html" }

/-- Two changes with the same `created` timestamp, queried in descending
number order. -/
def chTieA : Change :=
  { number := 5, subject := "tie a", created := some "2024-05-05 05:05:05",
    currentRevision := none, project := "p", status := "NEW",
    ownerName := "o", updated := "u" }

def chTieB : Change :=
  { number := 3, subject := "tie b", created := some "2024-05-05 05:05:05",
    currentRevision := none, project := "p", status := "NEW",
    ownerName := "o", updated := "u" }

def envTie : Env :=
  { genv := gitOkEnv, queryResult := .ok [chTieA, chTieB],
    detailR := fun _ => .error (), commentsR := fun _ => .error (),
    filesR := fun _ _ => .error (), patchR := fun _ _ => .error (),
    renderR := fun _ _ _ => .error () }

/-- Pre-existing repository, empty query result. -/
def envExisting : Env :=
  { genv := gitOkEnv, queryResult := .ok [],
    detailR := fun _ => .error (), commentsR := fun _ => .error (),
    filesR := fun _ _ => .error (), patchR := fun _ _ => .error (),
    renderR := fun _ _ _ => .error () }

/-- C1 counterexample: with one queried change that is skipped for lack of
a current revision (so zero changes are successfully detailed), the
aggregated metadata snapshot written by save_metadata nevertheless
contains one entry — save_metadata iterates over all queried changes, so
skipped and failed changes do contribute entries, refuting the claim that
only successfully detailed changes appear. -/
theorem metadata_includes_skipped_counterexample :
    chNoRev.currentRevision = none ∧
    (preserveHistory envSkip ["repo"] "b").2 =
      Except.ok (runResult envSkip [chNoRev] ["repo"]) ∧
    (runResult envSkip [chNoRev] ["repo"]).metadataEntries =
      [{ change := chNoRev, comments := [], files := [] }] :=
  ⟨rfl, rfl, rfl⟩

/-- C1 (amended): the aggregated metadata snapshot contains exactly one
entry per queried change, in processing order; a successfully detailed
change's entry carries its fetched comments and files, while a change
that was skipped or whose detail fetch failed contributes an entry with
empty comments and files (assuming the server assigns distinct change
numbers). -/
theorem metadata_entry_per_queried_change (env : Env) (repoPath : List String)
    (branchName : String) (queried : List Change)
    (hinit : (initRepo env.genv repoPath branchName).ret.truthy = true)
    (hq : env.queryResult = Except.ok queried)
    (hnodup : (queried.map Change.number).Nodup) :
    ∃ res, (preserveHistory env repoPath branchName).2 = Except.ok res ∧
      res.metadataEntries.map MetaEntry.change = sortChanges queried ∧
      res.metadataEntries.length = queried.length ∧
      (∀ e ∈ res.metadataEntries, fetchesOk env e.change = true →
        e.comments = fetchedComments env e.change ∧
        e.files = fetchedFiles env e.change) ∧
      (∀ e ∈ res.metadataEntries, fetchesOk env e.change = false →
        e.comments = [] ∧ e.files = []) := by
  refine ⟨runResult env queried repoPath,
    by rw [preserveHistory_ok env _ _ queried hinit hq], ?_, ?_, ?_, ?_⟩
  · show ((sortChanges queried).map (metaEntryOf (runPState env queried))).map
      MetaEntry.change = sortChanges queried
    rw [List.map_map]
    have hcomp : (MetaEntry.change ∘ metaEntryOf (runPState env queried)) = id :=
      funext fun c => rfl
    rw [hcomp, List.map_id]
  · show ((sortChanges queried).map (metaEntryOf (runPState env queried))).length
      = queried.length
    rw [List.length_map]
    exact (pySortBy_perm createdKey queried).length_eq
  · intro e he hf
    rcases List.mem_map.mp he with ⟨c, hc, rfl⟩
    show dictGetD (runPState env queried).commentsMap c.number [] = _ ∧
      dictGetD (runPState env queried).filesMap c.number [] = _
    rw [runPState_comments_get env queried hnodup c hc,
      runPState_files_get env queried hnodup c hc]
    have hfc : fetchesOk env c = true := hf
    rw [if_pos hfc, if_pos hfc]
    exact ⟨rfl, rfl⟩
  · intro e he hf
    rcases List.mem_map.mp he with ⟨c, hc, rfl⟩
    show dictGetD (runPState env queried).commentsMap c.number [] = [] ∧
      dictGetD (runPState env queried).filesMap c.number [] = []
    rw [runPState_comments_get env queried hnodup c hc,
      runPState_files_get env queried hnodup c hc]
    have hfc : fetchesOk env c = false := hf
    rw [if_neg (by simp [hfc]), if_neg (by simp [hfc])]
    exact ⟨rfl, rfl⟩

theorem metadata_entry_per_queried_change_witness :
    (initRepo envSkip.genv ["repo"] "b").ret.truthy = true ∧
    envSkip.queryResult = Except.ok [chNoRev] ∧
    (([chNoRev].map Change.number).Nodup) ∧
    ∃ res, (preserveHistory envSkip ["repo"] "b").2 = Except.ok res ∧
      res.metadataEntries.map MetaEntry.change = sortChanges [chNoRev] ∧
      res.metadataEntries.length = [chNoRev].length ∧
      (∀ e ∈ res.metadataEntries, fetchesOk envSkip e.change = true →
        e.comments = fetchedComments envSkip e.change ∧
        e.files = fetchedFiles envSkip e.change) ∧
      (∀ e ∈ res.metadataEntries, fetchesOk envSkip e.change = false →
        e.comments = [] ∧ e.files = []) :=
  ⟨rfl, rfl, by decide,
    metadata_entry_per_queried_change envSkip ["repo"] "b" [chNoRev] rfl rfl
      (by decide)⟩

/-- C2 counterexample: two queried changes share a `created` timestamp and
arrive in descending number order; the run processes them in that same
descending order (5 before 3), refuting the claimed ascending
change-number tie-break. -/
theorem order_tie_not_by_number_counterexample :
    createdKey chTieA = createdKey chTieB ∧
    chTieB.number < chTieA.number ∧
    (preserveHistory envTie ["repo"] "b").2 =
      Except.ok (runResult envTie [chTieA, chTieB] ["repo"]) ∧
    (runResult envTie [chTieA, chTieB] ["repo"]).processedOrder =
      [chTieA, chTieB] :=
  ⟨rfl, by decide, rfl, by decide⟩

/-- C2 (amended): for every preservation run the queried changes are
processed in non-decreasing createdAt order (with '' standing for an
absent createdAt), and any two changes with equal createdAt keep their
query-result order (Python's sort is stable; there is no change-number
tie-break); the index lists the changes in the same order. -/
theorem processing_order_sorted_stable (env : Env) (repoPath : List String)
    (branchName : String) (queried : List Change)
    (hinit : (initRepo env.genv repoPath branchName).ret.truthy = true)
    (hq : env.queryResult = Except.ok queried) :
    ∃ res, (preserveHistory env repoPath branchName).2 = Except.ok res ∧
      res.processedOrder.Pairwise
        (fun a b => strLeb (createdKey a) (createdKey b) = true) ∧
      (∀ k, res.processedOrder.filter (fun c => createdKey c == k) =
        queried.filter (fun c => createdKey c == k)) ∧
      res.indexRows = res.processedOrder := by
  refine ⟨runResult env queried repoPath,
    by rw [preserveHistory_ok env _ _ queried hinit hq], ?_, ?_, rfl⟩
  · exact pySortBy_pairwise createdKey queried
  · exact fun k => pySortBy_filter_key createdKey queried k

theorem processing_order_sorted_stable_witness :
    (initRepo envTie.genv ["repo"] "b").ret.truthy = true ∧
    envTie.queryResult = Except.ok [chTieA, chTieB] ∧
    ∃ res, (preserveHistory envTie ["repo"] "b").2 = Except.ok res ∧
      res.processedOrder.Pairwise
        (fun a b => strLeb (createdKey a) (createdKey b) = true) ∧
      (∀ k, res.processedOrder.filter (fun c => createdKey c == k) =
        [chTieA, chTieB].filter (fun c => createdKey c == k)) ∧
      res.indexRows = res.processedOrder :=
  ⟨rfl, rfl,
    processing_order_sorted_stable envTie ["repo"] "b" [chTieA, chTieB] rfl rfl⟩

/-- C3 counterexample: a change whose three detail fetches succeed and
whose document render would succeed, but whose raw-patch fetch raises:
`preserve_history` `continue`s past the html step, so no html file is
written — a patch-export failure does prevent the document write,
refuting the claimed independence of the two writes. -/
theorem patch_failure_blocks_html_counterexample :
    fetchesOk envPatchFail chOk = true ∧
    renderOk envPatchFail chOk = true ∧
    patchOk envPatchFail chOk = false ∧
    (preserveHistory envPatchFail ["repo"] "b").2 =
      Except.ok (runResult envPatchFail [chOk] ["repo"]) ∧
    (runResult envPatchFail [chOk] ["repo"]).patchFiles = [] ∧
    (runResult envPatchFail [chOk] ["repo"]).htmlFiles = [] :=
  ⟨rfl, rfl, rfl, rfl, rfl, rfl⟩

/-- C3 (amended): within the per-change fan-out of preserve_history the
two writes are ordered, not independent: a document-render failure does
not prevent the patch file from being written (the run's patch files do
not depend on the renderer at all, and a change whose fetches and patch
fetch succeed always gets its patch file), but a patch-export failure
skips the rest of the iteration, so the change's HTML document is never
written. -/
theorem patch_write_independent_html_dependent (env : Env)
    (repoPath : List String) (branchName : String) (queried : List Change)
    (hinit : (initRepo env.genv repoPath branchName).ret.truthy = true)
    (hq : env.queryResult = Except.ok queried)
    (hnodup : (queried.map Change.number).Nodup) :
    ∃ res, (preserveHistory env repoPath branchName).2 = Except.ok res ∧
      (∀ r', ∃ res',
        (preserveHistory { env with renderR := r' } repoPath branchName).2 =
          Except.ok res' ∧ res'.patchFiles = res.patchFiles) ∧
      (∀ c ∈ queried, fetchesOk env c = true → patchOk env c = true →
        patchFileName c ∈ res.patchFiles) ∧
      (∀ c ∈ queried, patchOk env c = false →
        ∀ f ∈ res.htmlFiles, f ≠ htmlFileName c) := by
  refine ⟨runResult env queried repoPath,
    by rw [preserveHistory_ok env _ _ queried hinit hq], ?_, ?_, ?_⟩
  · intro r'
    refine ⟨runResult { env with renderR := r' } queried repoPath,
      by rw [preserveHistory_ok { env with renderR := r' } _ _ queried hinit hq],
      ?_⟩
    rw [runResult_patchFiles, runResult_patchFiles]
    rfl
  · intro c hc hf hp
    rw [runResult_patchFiles]
    refine List.mem_flatten.mpr ⟨patchOut env c, ?_, patchOut_mem_self hf hp⟩
    exact List.mem_map_of_mem (patchOut env)
      ((pySortBy_perm createdKey queried).mem_iff.mpr hc)
  · intro c hc hp f hf heq
    rw [runResult_htmlFiles] at hf
    rcases List.mem_flatten.mp hf with ⟨out, hout, hfo⟩
    rcases List.mem_map.mp hout with ⟨c', hc', rfl⟩
    rcases mem_htmlOut hfo with ⟨rfl, _, hp', _⟩
    have hnum : c'.number = c.number := htmlFileName_inj_number heq
    have hceq : c' = c :=
      List.inj_on_of_nodup_map (nodup_numbers_sortChanges hnodup) hc'
        ((pySortBy_perm createdKey queried).mem_iff.mpr hc) hnum
    rw [hceq, hp] at hp'
    exact absurd hp' (by simp)

theorem patch_write_independent_html_dependent_witness :
    (initRepo envPatchFail.genv ["repo"] "b").ret.truthy = true ∧
    envPatchFail.queryResult = Except.ok [chOk] ∧
    (([chOk].map Change.number).Nodup) ∧
    ∃ res, (preserveHistory envPatchFail ["repo"] "b").2 = Except.ok res ∧
      (∀ r', ∃ res',
        (preserveHistory { envPatchFail with renderR := r' } ["repo"] "b").2 =
          Except.ok res' ∧ res'.patchFiles = res.patchFiles) ∧
      (∀ c ∈ [chOk], fetchesOk envPatchFail c = true →
        patchOk envPatchFail c = true → patchFileName c ∈ res.patchFiles) ∧
      (∀ c ∈ [chOk], patchOk envPatchFail c = false →
        ∀ f ∈ res.htmlFiles, f ≠ htmlFileName c) :=
  ⟨rfl, rfl, by decide,
    patch_write_independent_html_dependent envPatchFail ["repo"] "b" [chOk]
      rfl rfl (by decide)⟩

/-- C6: For every queried change whose currentRevisionId is absent, no
patch file and no HTML document is produced for it (it never appears in
patches/ or html/), yet it appears as a row in the generated index
listing and is counted in the run's total-queried count.  (Distinct
server-assigned change numbers are assumed so that "its" files are
well-defined.) -/
theorem skipped_change_not_exported (env : Env) (repoPath : List String)
    (branchName : String) (queried : List Change) (c : Change)
    (hinit : (initRepo env.genv repoPath branchName).ret.truthy = true)
    (hq : env.queryResult = Except.ok queried)
    (hnodup : (queried.map Change.number).Nodup)
    (hc : c ∈ queried) (hrev : c.currentRevision = none) :
    ∃ res, (preserveHistory env repoPath branchName).2 = Except.ok res ∧
      (∀ f ∈ res.patchFiles, f ≠ patchFileName c) ∧
      (∀ f ∈ res.htmlFiles, f ≠ htmlFileName c) ∧
      c ∈ res.indexRows ∧
      res.totalChanges = queried.length := by
  have hcs : c ∈ sortChanges queried :=
    (pySortBy_perm createdKey queried).mem_iff.mpr hc
  have hinj := List.inj_on_of_nodup_map (nodup_numbers_sortChanges hnodup)
  refine ⟨runResult env queried repoPath,
    by rw [preserveHistory_ok env _ _ queried hinit hq], ?_, ?_, hcs, ?_⟩
  · intro f hf heq
    rw [runResult_patchFiles] at hf
    rcases List.mem_flatten.mp hf with ⟨out, hout, hfo⟩
    rcases List.mem_map.mp hout with ⟨c', hc', rfl⟩
    rcases mem_patchOut hfo with ⟨rfl, hfok, _⟩
    have hceq : c' = c := hinj hc' hcs (patchFileName_inj_number heq)
    rw [hceq, fetchesOk_none hrev] at hfok
    exact absurd hfok (by simp)
  · intro f hf heq
    rw [runResult_htmlFiles] at hf
    rcases List.mem_flatten.mp hf with ⟨out, hout, hfo⟩
    rcases List.mem_map.mp hout with ⟨c', hc', rfl⟩
    rcases mem_htmlOut hfo with ⟨rfl, hfok, _, _⟩
    have hceq : c' = c := hinj hc' hcs (htmlFileName_inj_number heq)
    rw [hceq, fetchesOk_none hrev] at hfok
    exact absurd hfok (by simp)
  · show (sortChanges queried).length = queried.length
    exact (pySortBy_perm createdKey queried).length_eq

theorem skipped_change_not_exported_witness :
    (initRepo envSkip.genv ["repo"] "b").ret.truthy = true ∧
    envSkip.queryResult = Except.ok [chNoRev] ∧
    (([chNoRev].map Change.number).Nodup) ∧
    chNoRev ∈ [chNoRev] ∧ chNoRev.currentRevision = none ∧
    ∃ res, (preserveHistory envSkip ["repo"] "b").2 = Except.ok res ∧
      (∀ f ∈ res.patchFiles, f ≠ patchFileName chNoRev) ∧
      (∀ f ∈ res.htmlFiles, f ≠ htmlFileName chNoRev) ∧
      chNoRev ∈ res.indexRows ∧
      res.totalChanges = [chNoRev].length :=
  ⟨rfl, rfl, by decide, by decide, rfl,
    skipped_change_not_exported envSkip ["repo"] "b" [chNoRev] chNoRev rfl rfl
      (by decide) (by decide) rfl⟩

/-- Repository initialization succeeds (pre-existing repository) but the
query call itself raises. -/
def envQueryFail : Env :=
  { genv := gitOkEnv, queryResult := .error (),
    detailR := fun _ => .ok [], commentsR := fun _ => .ok [],
    filesR := fun _ _ => .ok [], patchR := fun _ _ => .ok "patch",
    renderR := fun _ _ _ => .ok "html" }

/-- C8 counterexample: repository initialization is not the only fatal
failure of a run.  `get_changes` is called outside any try block
(history_preserver.py line 153), so here initialization succeeds, the
single query request is issued, it raises, and the run aborts with no
summary — a second fatal, summary-less failure after init succeeded,
refuting the claim's final conjunct. -/
theorem query_failure_second_fatal_counterexample :
    (initRepo envQueryFail.genv ["repo"] "b").ret.truthy = true ∧
    envQueryFail.queryResult = Except.error () ∧
    preserveHistory envQueryFail ["repo"] "b" =
      ([NetCall.query], Except.error ()) :=
  ⟨rfl, rfl, rfl⟩

/-- C8 (amended): if repository initialization fails, preserve_history
aborts the entire run before issuing any network request to the review
server (the issued-call trace is empty: no query, no fetch) and produces
no summary.  It is not the only fatal failure: the query is issued
outside any handler, so a query failure also aborts the run with no
summary, after exactly that one network call; when initialization and
the query both succeed the run always returns a summary — every later
failure is per-change and non-fatal. -/
theorem init_failure_fatal_before_network (env : Env) (repoPath : List String)
    (branchName : String)
    (h : (initRepo env.genv repoPath branchName).ret.truthy = false) :
    preserveHistory env repoPath branchName = ([], Except.error ()) ∧
    (∀ (env2 : Env) (p2 : List String) (b2 : String),
      (initRepo env2.genv p2 b2).ret.truthy = true →
      env2.queryResult = Except.error () →
      preserveHistory env2 p2 b2 = ([NetCall.query], Except.error ())) ∧
    (∀ (env2 : Env) (p2 : List String) (b2 : String) (queried : List Change),
      (initRepo env2.genv p2 b2).ret.truthy = true →
      env2.queryResult = Except.ok queried →
      ∃ res, (preserveHistory env2 p2 b2).2 = Except.ok res) := by
  refine ⟨by simp [preserveHistory, h], ?_, ?_⟩
  · intro env2 p2 b2 h2 hq
    exact preserveHistory_query_error env2 p2 b2 h2 hq
  · intro env2 p2 b2 queried h2 hq
    exact ⟨runResult env2 queried p2,
      by rw [preserveHistory_ok env2 p2 b2 queried h2 hq]⟩

theorem init_failure_fatal_before_network_witness :
    (initRepo envInitFail.genv ["repo"] "b").ret.truthy = false ∧
    preserveHistory envInitFail ["repo"] "b" = ([], Except.error ()) :=
  ⟨rfl, (init_failure_fatal_before_network envInitFail ["repo"] "b" rfl).1⟩

/-- C7 counterexample: with a pre-existing repository the run creates the
`gerrit-archive` subfolder, but its staged output (here the index
document) lands under the repository root's `html/` folder, not under
`gerrit-archive/` — the claim that output is staged into the well-known
subfolder fails. -/
theorem staging_not_in_archive_counterexample :
    envExisting.genv.gitDirExists = true ∧
    (initRepo envExisting.genv ["repo"] "b").dirsCreated =
      [["repo", "gerrit-archive"]] ∧
    (preserveHistory envExisting ["repo"] "b").2 =
      Except.ok (runResult envExisting [] ["repo"]) ∧
    (runResult envExisting [] ["repo"]).stagedFiles =
      [["repo", "html", "index.html"]] ∧
    ¬ (["repo", "gerrit-archive"] <+: ["repo", "html", "index.html"]) :=
  ⟨rfl, rfl, rfl, rfl, by decide⟩

/-- C7 (amended): when the target path already holds a repository at
INIT_SINK, the run creates the well-known 'gerrit-archive' subfolder in
it but does not use it: every staged output file (patches, html, index)
goes into the repository root's `patches/` and `html/` subfolders, and
nothing is staged under the created subfolder. -/
theorem staging_ignores_archive_subfolder (env : Env) (repoPath : List String)
    (branchName : String) (queried : List Change)
    (hgit : env.genv.gitDirExists = true)
    (hq : env.queryResult = Except.ok queried) :
    (initRepo env.genv repoPath branchName).dirsCreated =
      [repoPath ++ ["gerrit-archive"]] ∧
    ∃ res, (preserveHistory env repoPath branchName).2 = Except.ok res ∧
      res.patchStageDir = repoPath ++ ["patches"] ∧
      res.htmlStageDir = repoPath ++ ["html"] ∧
      (∀ f ∈ res.stagedFiles,
        ¬ (repoPath ++ ["gerrit-archive"]) <+: f) := by
  have hinit : (initRepo env.genv repoPath branchName).ret.truthy = true := by
    simp [initRepo, hgit, InitRet.truthy]
  refine ⟨by simp [initRepo, hgit],
    runResult env queried repoPath,
    by rw [preserveHistory_ok env _ _ queried hinit hq],
    rfl, rfl, ?_⟩
  intro f hf hpre
  have hnotpre : ∀ (tail : List String),
      ¬ (repoPath ++ ["gerrit-archive"]) <+: (repoPath ++ tail) ∨
        ["gerrit-archive"] <+: tail := by
    intro tail
    by_cases h : (repoPath ++ ["gerrit-archive"]) <+: (repoPath ++ tail)
    · exact Or.inr ((List.prefix_append_right_inj repoPath).mp h)
    · exact Or.inl h
  have hmem : f ∈ (runResult env queried repoPath).stagedFiles := hf
  simp only [runResult, List.mem_append, List.mem_map, List.mem_singleton] at hmem
  rcases hmem with (⟨g, _, rfl⟩ | ⟨g, _, rfl⟩) | rfl
  · rcases hnotpre ["patches", g] with h | h
    · exact h hpre
    · rcases List.cons_prefix_cons.mp h with ⟨habs, _⟩
      exact absurd habs (by decide)
  · rcases hnotpre ["html", g] with h | h
    · exact h hpre
    · rcases List.cons_prefix_cons.mp h with ⟨habs, _⟩
      exact absurd habs (by decide)
  · rcases hnotpre ["html", "index.html"] with h | h
    · exact h hpre
    · rcases List.cons_prefix_cons.mp h with ⟨habs, _⟩
      exact absurd habs (by decide)

theorem staging_ignores_archive_subfolder_witness :
    envExisting.genv.gitDirExists = true ∧
    envExisting.queryResult = Except.ok [] ∧
    ((initRepo envExisting.genv ["repo"] "b").dirsCreated =
      [["repo"] ++ ["gerrit-archive"]] ∧
    ∃ res, (preserveHistory envExisting ["repo"] "b").2 = Except.ok res ∧
      res.patchStageDir = ["repo"] ++ ["patches"] ∧
      res.htmlStageDir = ["repo"] ++ ["html"] ∧
      (∀ f ∈ res.stagedFiles,
        ¬ (["repo"] ++ ["gerrit-archive"]) <+: f)) :=
  ⟨rfl, rfl,
    staging_ignores_archive_subfolder envExisting ["repo"] "b" [] rfl rfl⟩

/-- Mutable loop state of `export_changes_with_html` (history_preserver.py
lines 50-110): written files plus the Python local variable
`safe_subject`, which is unbound (`none`) until some patch export reaches
the assignment on line 85. -/
structure EState where
  patchFiles : List String
  htmlFiles : List String
  safeSubjectVar : Option (List Char)
deriving DecidableEq

/-- One iteration of the `export_changes_with_html` loop
(history_preserver.py lines 61-110): skip without a current revision;
skip on any detail-fetch failure; in the patch block `safe_subject` is
assigned only after `get_patch` succeeds (lines 84-85), and a patch
failure does not skip the html block; the html filename (line 101) reads
whatever `safe_subject` currently holds — raising NameError (caught by
the html block's handler) when it was never assigned. -/
def exportStep (env : Env) (st : EState) (c : Change) : EState :=
  match c.currentRevision with
  | none => st
  | some rev =>
    match env.detailR c.number, env.commentsR c.number, env.filesR c.number rev with
    | .ok d, .ok cm, .ok fs =>
      let st1 :=
        match env.patchR c.number rev with
        | .error _ => st
        | .ok _ =>
          { st with safeSubjectVar := some (safeSubjectL c.subject.toList),
                    patchFiles := st.patchFiles ++ [patchFileName c] }
      match env.renderR d cm fs with
      | .error _ => st1
      | .ok _ =>
        match st1.safeSubjectVar with
        | none => st1
        | some s =>
          { st1 with htmlFiles := st1.htmlFiles ++ [htmlNameWith c.number s] }
    | _, _, _ => st

def initialEState : EState :=
  { patchFiles := [], htmlFiles := [], safeSubjectVar := none }

/-- Embeds `GerritHistoryPreserver.export_changes_with_html` (history_preserver.py
lines 37-116): the query (line 55) is uncaught, so its failure aborts the
export; otherwise the returned list is iterated in server order (no sort). -/
def exportChangesWithHtml (env : Env) : Except Unit EState :=
  match env.queryResult with
  | .error _ => .error ()
  | .ok queried => .ok (queried.foldl (exportStep env) initialEState)

/-- The iteration for `c` reaches the `safe_subject` assignment on
line 85 (fetches and patch fetch succeed). -/
def assignsVar (env : Env) (c : Change) : Bool :=
  fetchesOk env c && patchOk env c

theorem exportStep_var (env : Env) (st : EState) (c : Change) :
    (exportStep env st c).safeSubjectVar =
      if assignsVar env c then some (safeSubjectL c.subject.toList)
      else st.safeSubjectVar := by
  unfold exportStep assignsVar fetchesOk patchOk
  cases hrev : c.currentRevision with
  | none => simp [hrev]
  | some rev =>
    cases hd : env.detailR c.number with
    | error u => simp [hrev, hd, exOk]
    | ok d =>
      cases hcm : env.commentsR c.number with
      | error u => simp [hrev, hd, hcm, exOk]
      | ok cm =>
        cases hfs : env.filesR c.number rev with
        | error u => simp [hrev, hd, hcm, hfs, exOk]
        | ok fs =>
          cases hp : env.patchR c.number rev with
          | error u =>
            cases hr : env.renderR d cm fs with
            | error u2 => simp [hrev, hd, hcm, hfs, hp, hr, exOk]
            | ok h =>
              cases hv : st.safeSubjectVar with
              | none => simp [hrev, hd, hcm, hfs, hp, hr, hv, exOk]
              | some s => simp [hrev, hd, hcm, hfs, hp, hr, hv, exOk]
          | ok pc =>
            cases hr : env.renderR d cm fs with
            | error u2 => simp [hrev, hd, hcm, hfs, hp, hr, exOk]
            | ok h => simp [hrev, hd, hcm, hfs, hp, hr, exOk]

theorem getLast?_cons_of_ne_nil {α : Type} {xs : List α} (a : α) (h : xs ≠ []) :
    (a :: xs).getLast? = xs.getLast? := by
  cases xs with
  | nil => exact absurd rfl h
  | cons b bs => exact List.getLast?_cons_cons

theorem getLast?_none_eq_nil {α : Type} {l : List α} (h : l.getLast? = none) :
    l = [] := by
  by_contra hne
  have h2 := List.getLast?_isSome.mpr hne
  rw [h] at h2
  simp at h2

theorem foldl_exportStep_var (env : Env) :
    ∀ (l : List Change) (st : EState),
      (l.foldl (exportStep env) st).safeSubjectVar =
        match (l.filter (assignsVar env)).getLast? with
        | none => st.safeSubjectVar
        | some c => some (safeSubjectL c.subject.toList) := by
  intro l
  induction l with
  | nil => intro st; rfl
  | cons c cs ih =>
    intro st
    simp only [List.foldl_cons]
    rw [ih]
    by_cases hv : assignsVar env c = true
    · rw [List.filter_cons_of_pos hv]
      cases hlast : (cs.filter (assignsVar env)).getLast? with
      | none =>
        rw [getLast?_none_eq_nil hlast]
        show (exportStep env st c).safeSubjectVar = _
        rw [exportStep_var, if_pos hv]
        rfl
      | some c' =>
        rw [getLast?_cons_of_ne_nil c
          (fun hnil => by rw [hnil] at hlast; cases hlast), hlast]
    · rw [List.filter_cons_of_neg hv]
      cases hlast : (cs.filter (assignsVar env)).getLast? with
      | none =>
        show (exportStep env st c).safeSubjectVar = _
        rw [exportStep_var, if_neg hv]
      | some c' => rfl

theorem exOk_eq_true {α : Type} {e : Except Unit α} (h : exOk e = true) :
    ∃ a, e = Except.ok a := by
  cases e with
  | error u => simp [exOk] at h
  | ok a => exact ⟨a, rfl⟩

theorem htmlNameWith_inj_subject {n : Nat} {s1 s2 : List Char}
    (h : htmlNameWith n s1 = htmlNameWith n s2) : s1 = s2 := by
  have hd := congrArg String.data h
  simp only [htmlNameWith] at hd
  have h1 := List.append_cancel_left hd
  injection h1 with h1a h1b
  exact List.append_cancel_right h1b

/-- C9: In export_changes_with_html, the sanitized subject used to name
files is assigned only inside the patch-export step, after the raw-patch
fetch succeeds; therefore, for every change whose get_patch call raises
(here the last queried change, with its other fetches and its render
succeeding), the subsequent HTML export either fails with an
undefined-name error and writes no file — when no earlier change reached
the assignment — or writes the HTML file under an identifier built from
the sanitized subject of the earlier change that last reached it, which
differs from the identifier built from the current change's subject
whenever their sanitized subjects differ.  In both cases no patch file is
written for the change. -/
theorem stale_safe_subject_html (env : Env) (pre : List Change) (c : Change)
    (rev : String) (hq : env.queryResult = Except.ok (pre ++ [c]))
    (hrev : c.currentRevision = some rev)
    (hfetch : fetchesOk env c = true)
    (hpatch : env.patchR c.number rev = Except.error ())
    (hrender : renderOk env c = true) :
    ∃ st, exportChangesWithHtml env = Except.ok st ∧
    st.patchFiles =
      (pre.foldl (exportStep env) initialEState).patchFiles ∧
    ((pre.filter (assignsVar env)).getLast? = none →
      st.htmlFiles =
        (pre.foldl (exportStep env) initialEState).htmlFiles) ∧
    (∀ c', (pre.filter (assignsVar env)).getLast? = some c' →
      st.htmlFiles =
        (pre.foldl (exportStep env) initialEState).htmlFiles ++
          [htmlNameWith c.number (safeSubjectL c'.subject.toList)] ∧
      (safeSubjectL c'.subject.toList ≠ safeSubjectL c.subject.toList →
        htmlNameWith c.number (safeSubjectL c'.subject.toList) ≠
          htmlFileName c)) := by
  have hfetch' : (exOk (env.detailR c.number) && exOk (env.commentsR c.number) &&
      exOk (env.filesR c.number rev)) = true := by
    have h := hfetch
    unfold fetchesOk at h
    rw [hrev] at h
    exact h
  rcases (Bool.and_eq_true _ _).mp hfetch' with ⟨h12, hfs'⟩
  rcases (Bool.and_eq_true _ _).mp h12 with ⟨hd', hcm'⟩
  rcases exOk_eq_true hd' with ⟨d, hd⟩
  rcases exOk_eq_true hcm' with ⟨cm, hcm⟩
  rcases exOk_eq_true hfs' with ⟨fs, hfs⟩
  have hrender' : exOk (env.renderR d cm fs) = true := by
    have h := hrender
    unfold renderOk at h
    simp only [hrev, hd, hcm, hfs] at h
    exact h
  rcases exOk_eq_true hrender' with ⟨doc, hr⟩
  have hstep : ∀ st : EState, exportStep env st c =
      match st.safeSubjectVar with
      | none => st
      | some s =>
        { st with htmlFiles := st.htmlFiles ++ [htmlNameWith c.number s] } := by
    intro st
    unfold exportStep
    simp only [hrev, hd, hcm, hfs, hpatch, hr]
  have hrun : exportChangesWithHtml env =
      Except.ok (exportStep env (pre.foldl (exportStep env) initialEState) c) := by
    unfold exportChangesWithHtml
    rw [hq]
    show Except.ok ((pre ++ [c]).foldl (exportStep env) initialEState) = _
    rw [List.foldl_append]
    rfl
  refine ⟨exportStep env (pre.foldl (exportStep env) initialEState) c,
    hrun, ?_, ?_, ?_⟩
  · rw [hstep]
    cases hv : (pre.foldl (exportStep env) initialEState).safeSubjectVar with
    | none => rfl
    | some s => rfl
  · intro hnone
    have hv : (pre.foldl (exportStep env) initialEState).safeSubjectVar = none := by
      rw [foldl_exportStep_var, hnone]
      rfl
    rw [hstep, hv]
  · intro c' hlast
    have hv : (pre.foldl (exportStep env) initialEState).safeSubjectVar =
        some (safeSubjectL c'.subject.toList) := by
      rw [foldl_exportStep_var, hlast]
    constructor
    · rw [hstep, hv]
    · intro hne heq
      have heq' : htmlNameWith c.number (safeSubjectL c'.subject.toList) =
          htmlNameWith c.number (safeSubjectL c.subject.toList) := heq
      exact hne (htmlNameWith_inj_subject heq')

/-- First queried change exports cleanly; the second one's raw-patch
fetch raises. -/
def chFirst : Change :=
  { number := 1, subject := "first ok", created := some "2024-01-01",
    currentRevision := some "r1", project := "p", status := "MERGED",
    ownerName := "o", updated := "u" }

def chSecond : Change :=
  { number := 2, subject := "second fails", created := some "2024-01-02",
    currentRevision := some "r2", project := "p", status := "MERGED",
    ownerName := "o", updated := "u" }

def envStale : Env :=
  { genv := gitOkEnv, queryResult := .ok [chFirst, chSecond],
    detailR := fun _ => .ok [], commentsR := fun _ => .ok [],
    filesR := fun _ _ => .ok [],
    patchR := fun n _ => if n == 2 then .error () else .ok "patch",
    renderR := fun _ _ _ => .ok "html" }

theorem stale_safe_subject_html_witness :
    envStale.queryResult = Except.ok ([chFirst] ++ [chSecond]) ∧
    chSecond.currentRevision = some "r2" ∧
    fetchesOk envStale chSecond = true ∧
    envStale.patchR chSecond.number "r2" = Except.error () ∧
    renderOk envStale chSecond = true ∧
    (∃ st, exportChangesWithHtml envStale = Except.ok st ∧
    st.patchFiles =
      ([chFirst].foldl (exportStep envStale) initialEState).patchFiles ∧
    (([chFirst].filter (assignsVar envStale)).getLast? = none →
      st.htmlFiles =
        ([chFirst].foldl (exportStep envStale) initialEState).htmlFiles) ∧
    (∀ c', ([chFirst].filter (assignsVar envStale)).getLast? = some c' →
      st.htmlFiles =
        ([chFirst].foldl (exportStep envStale) initialEState).htmlFiles ++
          [htmlNameWith chSecond.number (safeSubjectL c'.subject.toList)] ∧
      (safeSubjectL c'.subject.toList ≠ safeSubjectL chSecond.subject.toList →
        htmlNameWith chSecond.number (safeSubjectL c'.subject.toList) ≠
          htmlFileName chSecond))) :=
  ⟨rfl, rfl, rfl, rfl, rfl,
    stale_safe_subject_html envStale [chFirst] chSecond "r2" rfl rfl rfl rfl rfl⟩

end Gerrit
